import Mathlib

/-!
Verification of the FundFeed trending ranking and engagement ledger.

The definitions below are a shallow embedding of the data-access layer in
src/lib/firestore.ts and src/lib/database.ts (the two backends implement the
same algorithms), of the SQL schema in the Supabase migration appended to
src/lib/database.ts, and of the intro-request HTTP route handler.  Documents
and rows are association lists keyed by string ids; Firestore timestamps are
modelled as natural numbers; numeric counters are integers so that the
floor-at-zero behaviour of unfollow is meaningful.
-/

namespace FundFeed

/-- A fundraising round document, after the FundraisingRound interface in
src/types/index.ts (the id is the association-list key, kept outside). -/
structure Round where
  companyName : String
  logoUrl : String
  raisingAmount : Nat
  currency : String
  description : String
  deckUrl : String
  founderId : String
  createdAt : Nat
  updatedAt : Nat
  followerCount : Int
  introRequestCount : Int
deriving Repr, DecidableEq

/-- A user profile document, after the User interface in src/types/index.ts. -/
structure UserRec where
  email : String
  displayName : String
  photoUrl : Option String
  role : String
  createdAt : Nat
  followedRounds : List String
deriving Repr, DecidableEq

/-- Status of an intro request: pending, accepted or declined. -/
inductive IntroStatus where
  | pending
  | accepted
  | declined
deriving Repr, DecidableEq

/-- An intro-request document, after the IntroRequest interface in
src/types/index.ts. -/
structure IntroReq where
  investorId : String
  roundId : String
  startupName : String
  status : IntroStatus
  createdAt : Nat
  message : Option String
deriving Repr, DecidableEq

/-- The whole backing store: the three collections (tables) touched by the
ledger and the ranking engine, plus a counter used to generate fresh
document ids (standing for Firestore auto-ids and Postgres uuids). -/
structure Store where
  rounds : List (String × Round)
  users : List (String × UserRec)
  requests : List (String × IntroReq)
  nextId : Nat
deriving Repr, DecidableEq

/-- Fetch the document stored under a key (getDoc / select-eq-maybeSingle). -/
def lookupTable (l : List (String × α)) (k : String) : Option α :=
  (l.find? (fun p => p.1 == k)).map (fun p => p.2)

/-- Overwrite the fields of the document stored under a key
(updateDoc / update-eq). -/
def updateTable (l : List (String × α)) (k : String) (f : α → α) :
    List (String × α) :=
  l.map (fun p => if p.1 == k then (p.1, f p.2) else p)

def Store.getRound (s : Store) (roundId : String) : Option Round :=
  lookupTable s.rounds roundId

def Store.getUser (s : Store) (userId : String) : Option UserRec :=
  lookupTable s.users userId

def Store.updateRound (s : Store) (roundId : String) (f : Round → Round) :
    Store :=
  { s with rounds := updateTable s.rounds roundId f }

def Store.updateUser (s : Store) (userId : String) (f : UserRec → UserRec) :
    Store :=
  { s with users := updateTable s.users userId f }

/-- Fresh document id produced by the store for an insert. -/
def freshDocId (n : Nat) : String :=
  "doc_" ++ toString n

/-- The ordering used by the trending query in getTrendingRounds
(src/lib/firestore.ts lines 75-92 and src/lib/database.ts lines 67-94):
createdAt descending first, followerCount descending as tie-break. -/
def trendingBefore (a b : String × Round) : Prop :=
  b.2.createdAt < a.2.createdAt ∨
    (a.2.createdAt = b.2.createdAt ∧ b.2.followerCount ≤ a.2.followerCount)

instance : DecidableRel trendingBefore := fun a b => by
  unfold trendingBefore
  infer_instance

instance : IsTotal (String × Round) trendingBefore where
  total a b := by
    rcases lt_trichotomy a.2.createdAt b.2.createdAt with h | h | h
    · exact Or.inr (Or.inl h)
    · rcases le_total a.2.followerCount b.2.followerCount with hf | hf
      · exact Or.inr (Or.inr ⟨h.symm, hf⟩)
      · exact Or.inl (Or.inr ⟨h, hf⟩)
    · exact Or.inl (Or.inl h)

instance : IsTrans (String × Round) trendingBefore where
  trans a b c hab hbc := by
    rcases hab with h1 | ⟨h1, h1f⟩
    · rcases hbc with h2 | ⟨h2, _⟩
      · exact Or.inl (h2.trans h1)
      · exact Or.inl (h2 ▸ h1)
    · rcases hbc with h2 | ⟨h2, h2f⟩
      · exact Or.inl (h1 ▸ h2)
      · exact Or.inr ⟨h1.trans h2, h2f.trans h1f⟩

/-- Embedding of getTrendingRounds: the store answers the query ordered by
created_at descending then follower_count descending, limited to
limitCount rows.  The sort is stable, mirroring the deterministic row
order of the backing query. -/
def getTrendingRounds (s : Store) (limitCount : Nat) :
    List (String × Round) :=
  (s.rounds.insertionSort trendingBefore).take limitCount

/-- Embedding of followRound (src/lib/firestore.ts lines 159-185; the
Supabase variant in src/lib/database.ts lines 198-239 performs the same
reads and writes).  Reads the user, no-ops when the round is already
followed, otherwise appends the round id to followedRounds and then
increments the round counter using the value it just read, skipping the
increment when the round document does not exist. -/
def followRound (s : Store) (userId roundId : String) : Except String Store :=
  match s.getUser userId with
  | none => .error "User not found"
  | some userData =>
    let followedRounds := userData.followedRounds
    if followedRounds.contains roundId then
      .ok s
    else
      let s1 := s.updateUser userId
        (fun u => { u with followedRounds := followedRounds ++ [roundId] })
      match s1.getRound roundId with
      | none => .ok s1
      | some roundData =>
        .ok (s1.updateRound roundId
          (fun r => { r with followerCount := roundData.followerCount + 1 }))

/-- Embedding of unfollowRound (src/lib/firestore.ts lines 190-216,
src/lib/database.ts lines 241-282): removes the round id from
followedRounds only when present, then writes
max(readCount - 1, 0) as the new follower count when the round exists. -/
def unfollowRound (s : Store) (userId roundId : String) :
    Except String Store :=
  match s.getUser userId with
  | none => .error "User not found"
  | some userData =>
    let followedRounds := userData.followedRounds
    if followedRounds.contains roundId then
      let s1 := s.updateUser userId
        (fun u => { u with
          followedRounds := followedRounds.filter (fun id => id != roundId) })
      match s1.getRound roundId with
      | none => .ok s1
      | some roundData =>
        .ok (s1.updateRound roundId
          (fun r => { r with
            followerCount := max (roundData.followerCount - 1) 0 }))
    else
      .ok s

/-- The follow predicate used by the UI: membership of the round id in the
user's followedRounds array (the sole source of truth per the spec). -/
def isFollowing (s : Store) (userId roundId : String) : Bool :=
  match s.getUser userId with
  | some u => u.followedRounds.contains roundId
  | none => false

/-- The existing-request query of createIntroRequest / hasIntroRequest:
first document whose investorId and roundId both match. -/
def findIntroRequest (s : Store) (investorId roundId : String) :
    Option (String × IntroReq) :=
  s.requests.find?
    (fun p => p.2.investorId == investorId && p.2.roundId == roundId)

/-- Embedding of hasIntroRequest (src/lib/firestore.ts lines 299-309). -/
def hasIntroRequest (s : Store) (investorId roundId : String) : Bool :=
  (findIntroRequest s investorId roundId).isSome

/-- Embedding of createIntroRequest (src/lib/firestore.ts lines 225-264):
check-then-act.  When a request for the pair already exists its id is
returned and nothing changes; otherwise a pending request is inserted and
the round's introRequestCount is rewritten as readCount + 1 (skipped when
the round document does not exist).  The Firestore code never fails on
this path, so the embedding is a total function. -/
def createIntroRequest (s : Store) (investorId roundId startupName : String)
    (message : Option String) (now : Nat) : String × Store :=
  match findIntroRequest s investorId roundId with
  | some (existingId, _) => (existingId, s)
  | none =>
    let newId := freshDocId s.nextId
    let newRequest : IntroReq :=
      { investorId := investorId, roundId := roundId,
        startupName := startupName, status := .pending,
        createdAt := now, message := message }
    let s1 : Store :=
      { s with requests := s.requests ++ [(newId, newRequest)],
               nextId := s.nextId + 1 }
    match s1.getRound roundId with
    | none => (newId, s1)
    | some roundData =>
      (newId, s1.updateRound roundId
        (fun r => { r with
          introRequestCount := roundData.introRequestCount + 1 }))

/-- The partial update accepted by updateFundraisingRound: every content or
counter field may be supplied or omitted.  The TypeScript parameter type
excludes id and createdAt, and an updatedAt entry would be overwritten by
the handler itself, so neither appears here. -/
structure RoundUpdates where
  companyName : Option String
  logoUrl : Option String
  raisingAmount : Option Nat
  currency : Option String
  description : Option String
  deckUrl : Option String
  founderId : Option String
  followerCount : Option Int
  introRequestCount : Option Int
deriving Repr, DecidableEq

/-- The empty partial update (every field omitted). -/
def RoundUpdates.none : RoundUpdates :=
  ⟨Option.none, Option.none, Option.none, Option.none, Option.none,
   Option.none, Option.none, Option.none, Option.none⟩

/-- Embedding of updateFundraisingRound (src/lib/firestore.ts lines 97-106,
src/lib/database.ts lines 96-121): applies the supplied fields and always
stamps updatedAt with the current time; fails when the round document is
absent (updateDoc rejects on a missing document). -/
def updateFundraisingRound (s : Store) (roundId : String)
    (u : RoundUpdates) (now : Nat) : Except String Store :=
  match s.getRound roundId with
  | Option.none => .error "No document to update"
  | some _ => .ok (s.updateRound roundId (fun r =>
      { companyName := u.companyName.getD r.companyName
        logoUrl := u.logoUrl.getD r.logoUrl
        raisingAmount := u.raisingAmount.getD r.raisingAmount
        currency := u.currency.getD r.currency
        description := u.description.getD r.description
        deckUrl := u.deckUrl.getD r.deckUrl
        founderId := u.founderId.getD r.founderId
        createdAt := r.createdAt
        updatedAt := now
        followerCount := u.followerCount.getD r.followerCount
        introRequestCount := u.introRequestCount.getD r.introRequestCount }))

/-- Sequential iteration of followRound: N calls one after the other,
stopping with Option.none if any call throws. -/
def followRoundN (s : Store) (userId roundId : String) : Nat → Option Store
  | 0 => some s
  | n + 1 =>
    match followRound s userId roundId with
    | .ok s1 => followRoundN s1 userId roundId n
    | .error _ => Option.none

/-- Sequential iteration of createIntroRequest: N calls one after the
other, collecting the returned request ids. -/
def createIntroRequestN (s : Store) (investorId roundId startupName : String)
    (message : Option String) (now : Nat) : Nat → List String × Store
  | 0 => ([], s)
  | n + 1 =>
    let r := createIntroRequest s investorId roundId startupName message now
    let rest :=
      createIntroRequestN r.2 investorId roundId startupName message now n
    (r.1 :: rest.1, rest.2)

/-- Number of stored intro-request records keyed by the given
(investor, round) pair. -/
def introPairCount (s : Store) (investorId roundId : String) : Nat :=
  s.requests.countP
    (fun p => p.2.investorId == investorId && p.2.roundId == roundId)

/-- Number of distinct users whose followedRounds contains the round id
(user ids are unique under StoreWF, so each user is counted once). -/
def usersFollowing (s : Store) (roundId : String) : Nat :=
  s.users.countP (fun p => p.2.followedRounds.contains roundId)

/-- Number of stored intro-request records referencing the round. -/
def introCountFor (s : Store) (roundId : String) : Nat :=
  s.requests.countP (fun p => p.2.roundId == roundId)

/-- Spec invariant: every stored round's followerCount equals the number of
distinct users following it. -/
def FollowerInv (s : Store) : Prop :=
  ∀ p ∈ s.rounds, p.2.followerCount = (usersFollowing s p.1 : Int)

/-- Spec invariant: every stored round's introRequestCount equals the number
of intro-request records referencing it. -/
def IntroInv (s : Store) : Prop :=
  ∀ p ∈ s.rounds, p.2.introRequestCount = (introCountFor s p.1 : Int)

/-- Store well-formedness: document ids are unique within the rounds and
users collections (Firestore document ids and Postgres primary keys). -/
def StoreWF (s : Store) : Prop :=
  (s.rounds.map (fun p => p.1)).Nodup ∧ (s.users.map (fun p => p.1)).Nodup

instance {ε α : Type} [DecidableEq ε] [DecidableEq α] :
    DecidableEq (Except ε α) := fun a b =>
  match a, b with
  | .ok x, .ok y =>
    if h : x = y then isTrue (by rw [h]) else
      isFalse (fun hc => h (by cases hc; rfl))
  | .error x, .error y =>
    if h : x = y then isTrue (by rw [h]) else
      isFalse (fun hc => h (by cases hc; rfl))
  | .ok _, .error _ => isFalse (fun hc => by cases hc)
  | .error _, .ok _ => isFalse (fun hc => by cases hc)

instance (s : Store) : Decidable (FollowerInv s) := by
  unfold FollowerInv
  infer_instance

instance (s : Store) : Decidable (IntroInv s) := by
  unfold IntroInv
  infer_instance

instance (s : Store) : Decidable (StoreWF s) := by
  unfold StoreWF
  infer_instance

/-- Program counter of one in-flight followRound call, one position per
atomic store operation performed by src/lib/firestore.ts lines 159-185
(the membership test and the appended array are computed from the values
read earlier, so they live inside the transitions). -/
inductive FollowPC where
  | readUser
  | writeUser
  | readRound
  | writeRound
  | finished
  | failed
deriving Repr, DecidableEq

/-- One in-flight followRound call: its arguments, its program counter and
the values it has read so far. -/
structure FollowThread where
  userId : String
  roundId : String
  pc : FollowPC
  savedFollowed : List String
  savedCount : Int
deriving Repr, DecidableEq

/-- One atomic step of an in-flight followRound call, exactly the store
operations of the source: read the user document (saving followedRounds),
test membership on the saved value and write the saved value plus the
round id, read the round document (saving followerCount), write the saved
count plus one. -/
def followThreadStep (s : Store) (t : FollowThread) : Store × FollowThread :=
  match t.pc with
  | .readUser =>
    match s.getUser t.userId with
    | none => (s, { t with pc := .failed })
    | some u => (s, { t with savedFollowed := u.followedRounds,
                             pc := .writeUser })
  | .writeUser =>
    if t.savedFollowed.contains t.roundId then
      (s, { t with pc := .finished })
    else
      (s.updateUser t.userId
        (fun u => { u with
          followedRounds := t.savedFollowed ++ [t.roundId] }),
       { t with pc := .readRound })
  | .readRound =>
    match s.getRound t.roundId with
    | none => (s, { t with pc := .finished })
    | some r => (s, { t with savedCount := r.followerCount,
                             pc := .writeRound })
  | .writeRound =>
    (s.updateRound t.roundId
      (fun r => { r with followerCount := t.savedCount + 1 }),
     { t with pc := .finished })
  | .finished => (s, t)
  | .failed => (s, t)

/-- Run several in-flight followRound calls under an explicit interleaving:
each schedule entry names the thread that performs its next atomic step. -/
def runFollowThreads (s : Store) (ts : List FollowThread) :
    List Nat → Store × List FollowThread
  | [] => (s, ts)
  | i :: rest =>
    match ts[i]? with
    | none => runFollowThreads s ts rest
    | some t =>
      let r := followThreadStep s t
      runFollowThreads r.1 (ts.set i r.2) rest

/-- Program counter of one in-flight createIntroRequest call against the
Supabase backend (src/lib/database.ts lines 284-337), one position per
store operation: the existence check, the insert (which the schema
constrains with UNIQUE(investor_id, round_id), database.ts line 522), the
counter read and the counter write. -/
inductive IntroPC where
  | check
  | insert
  | readRound
  | writeRound
  | finishedOk
  | finishedErr
deriving Repr, DecidableEq

/-- One in-flight createIntroRequest call: its arguments, its program
counter, the id it will return and the counter value it has read. -/
structure IntroThread where
  investorId : String
  roundId : String
  startupName : String
  message : Option String
  pc : IntroPC
  resultId : String
  savedCount : Int
deriving Repr, DecidableEq

/-- One atomic step of an in-flight createIntroRequest call against the
Supabase backend.  The insert enforces the schema's uniqueness constraint
on (investor_id, round_id): when a matching record already exists at
insert time the insert fails, and the source surfaces that failure by
throwing (database.ts lines 314-316), which the model records as
finishedErr.  A missing round makes the counter read fail the same way
(.single() on zero rows). -/
def introThreadStep (s : Store) (t : IntroThread) (now : Nat) :
    Store × IntroThread :=
  match t.pc with
  | .check =>
    match findIntroRequest s t.investorId t.roundId with
    | some (existingId, _) =>
      (s, { t with resultId := existingId, pc := .finishedOk })
    | none => (s, { t with pc := .insert })
  | .insert =>
    if (findIntroRequest s t.investorId t.roundId).isSome then
      (s, { t with pc := .finishedErr })
    else
      let newId := freshDocId s.nextId
      let newRequest : IntroReq :=
        { investorId := t.investorId, roundId := t.roundId,
          startupName := t.startupName, status := .pending,
          createdAt := now, message := t.message }
      ({ s with requests := s.requests ++ [(newId, newRequest)],
                nextId := s.nextId + 1 },
       { t with resultId := newId, pc := .readRound })
  | .readRound =>
    match s.getRound t.roundId with
    | none => (s, { t with pc := .finishedErr })
    | some r => (s, { t with savedCount := r.introRequestCount,
                             pc := .writeRound })
  | .writeRound =>
    (s.updateRound t.roundId
      (fun r => { r with introRequestCount := t.savedCount + 1 }),
     { t with pc := .finishedOk })
  | .finishedOk => (s, t)
  | .finishedErr => (s, t)

/-- Run several in-flight createIntroRequest calls under an explicit
interleaving. -/
def runIntroThreads (s : Store) (ts : List IntroThread) (now : Nat) :
    List Nat → Store × List IntroThread
  | [] => (s, ts)
  | i :: rest =>
    match ts[i]? with
    | none => runIntroThreads s ts now rest
    | some t =>
      let r := introThreadStep s t now
      runIntroThreads r.1 (ts.set i r.2) now rest

/-- Body of the intro-request POST endpoint; each field may be missing from
the JSON object. -/
structure IntroPostBody where
  roundId : Option String
  startupName : Option String
  userId : Option String
deriving Repr, DecidableEq

/-- Responses of the intro-request POST endpoint with their HTTP status. -/
inductive ApiResponse where
  | badRequest
  | authRequired
  | alreadyRequested
  | created (requestId : String)
  | serverError
deriving Repr, DecidableEq

/-- JavaScript truthiness test used by the route's field checks: a string
field is falsy when missing or empty. -/
def falsyField : Option String → Bool
  | Option.none => true
  | some v => v == ""

/-- Embedding of the route handler POST (the intro-request API route):
rejects with 400 when roundId or startupName is falsy, then with 401 when
userId is falsy, answers 200 already-requested when the pair already has
a request, and otherwise creates the request and answers 201 with its id
(the catch-all 500 branch is unreachable in the embedded success-only
Firestore path). -/
def POST (s : Store) (body : IntroPostBody) (now : Nat) :
    ApiResponse × Store :=
  if falsyField body.roundId || falsyField body.startupName then
    (.badRequest, s)
  else if falsyField body.userId then
    (.authRequired, s)
  else
    let userId := body.userId.getD ""
    let roundId := body.roundId.getD ""
    let startupName := body.startupName.getD ""
    if hasIntroRequest s userId roundId then
      (.alreadyRequested, s)
    else
      let r := createIntroRequest s userId roundId startupName Option.none now
      (.created r.1, r.2)

/-- Concrete round used by the witnesses and counterexamples. -/
def demoRound : Round :=
  { companyName := "Acme", logoUrl := "logo", raisingAmount := 100,
    currency := "USD", description := "desc", deckUrl := "deck",
    founderId := "F", createdAt := 5, updatedAt := 5,
    followerCount := 0, introRequestCount := 0 }

/-- Concrete user (not yet following anything) used by the witnesses. -/
def demoUser : UserRec :=
  { email := "u", displayName := "U", photoUrl := Option.none,
    role := "investor", createdAt := 1, followedRounds := [] }

/-- Concrete store with one round and two users, nobody following. -/
def demoStore : Store :=
  { rounds := [("R", demoRound)],
    users := [("U", demoUser), ("I", demoUser)],
    requests := [], nextId := 0 }

/-- Concrete store where user U already follows round R while the round's
followerCount is (inconsistently) still 0, exercising the unfollow floor. -/
def demoStoreFollowing : Store :=
  { rounds := [("R", demoRound)],
    users := [("U", { demoUser with followedRounds := ["R"] })],
    requests := [], nextId := 0 }

/-- Concrete store whose only user follows a round id that has no round
document, for the missing-round follow behaviour. -/
def demoStoreNoRound : Store :=
  { rounds := [], users := [("U", demoUser)], requests := [], nextId := 0 }

/-- The demo store after user U follows round R once: the round id recorded
in U's followedRounds and the follower count at 1, everything else (in
particular both timestamps) untouched. -/
def demoStoreAfterFollow : Store :=
  { rounds := [("R", { demoRound with followerCount := 1 })],
    users := [("U", { demoUser with followedRounds := ["R"] }),
              ("I", demoUser)],
    requests := [], nextId := 0 }

/-- Request body with startupName present but roundId and userId missing. -/
def demoBadBody : IntroPostBody :=
  { roundId := Option.none, startupName := some "Acme",
    userId := Option.none }

/-- Three concurrent followRound("U","R") calls, all at their first step. -/
def demoFollowThreads : List FollowThread :=
  [ { userId := "U", roundId := "R", pc := .readUser,
      savedFollowed := [], savedCount := 0 },
    { userId := "U", roundId := "R", pc := .readUser,
      savedFollowed := [], savedCount := 0 },
    { userId := "U", roundId := "R", pc := .readUser,
      savedFollowed := [], savedCount := 0 } ]

/-- Interleaving in which the three follow calls all read the user document
before any of them writes, and then each completes its remaining steps. -/
def demoFollowSchedule : List Nat :=
  [0, 1, 2, 0, 0, 0, 1, 1, 1, 2, 2, 2]

/-- Two concurrent createIntroRequest("I","R") calls at their first step. -/
def demoIntroThreads : List IntroThread :=
  [ { investorId := "I", roundId := "R", startupName := "Acme",
      message := Option.none, pc := .check, resultId := "", savedCount := 0 },
    { investorId := "I", roundId := "R", startupName := "Acme",
      message := Option.none, pc := .check, resultId := "", savedCount := 0 } ]

/-- Interleaving in which both calls pass the existence check before either
inserts; the second thread then commits fully, and the first thread's
insert hits the uniqueness constraint. -/
def demoIntroSchedule : List Nat :=
  [0, 1, 1, 1, 1, 0]

section TableLemmas

variable {α : Type}

theorem lookupTable_updateTable_self (l : List (String × α)) (k : String)
    (f : α → α) :
    lookupTable (updateTable l k f) k = (lookupTable l k).map f := by
  induction l with
  | nil => rfl
  | cons p t ih =>
    by_cases h : p.1 = k
    · simp [lookupTable, updateTable, List.find?, h]
    · simp only [lookupTable, updateTable, List.map_cons] at ih ⊢
      have hne : ((if p.1 == k then (p.1, f p.2) else p).1 == k) = false := by
        simp [h]
      simp only [List.find?]
      rw [hne]
      have hne' : (p.1 == k) = false := by simp [h]
      rw [hne']
      exact ih

theorem lookupTable_updateTable_ne (l : List (String × α)) (k k' : String)
    (f : α → α) (h : k' ≠ k) :
    lookupTable (updateTable l k f) k' = lookupTable l k' := by
  induction l with
  | nil => rfl
  | cons p t ih =>
    simp only [updateTable, List.map_cons] at ih ⊢
    by_cases hp : p.1 = k
    · have hhead :
          (if (p.1 == k) = true then (p.1, f p.2) else p) = (p.1, f p.2) := by
        simp [hp]
      have hne : ¬p.1 = k' := fun e => h (by rw [← e, hp])
      rw [hhead]
      simp only [lookupTable]
      rw [List.find?_cons_of_neg _ (by simp [hne]),
          List.find?_cons_of_neg _ (by simp [hne])]
      exact ih
    · have hhead : (if (p.1 == k) = true then (p.1, f p.2) else p) = p := by
        simp [hp]
      rw [hhead]
      by_cases hp' : p.1 = k'
      · simp only [lookupTable]
        rw [List.find?_cons_of_pos _ (by simp [hp']),
            List.find?_cons_of_pos _ (by simp [hp'])]
      · simp only [lookupTable]
        rw [List.find?_cons_of_neg _ (by simp [hp']),
            List.find?_cons_of_neg _ (by simp [hp'])]
        exact ih

theorem keys_updateTable (l : List (String × α)) (k : String) (f : α → α) :
    (updateTable l k f).map (fun p => p.1) = l.map (fun p => p.1) := by
  induction l with
  | nil => rfl
  | cons p t ih =>
    simp only [updateTable, List.map_cons] at ih ⊢
    rw [ih]
    by_cases h : p.1 = k <;> simp [h]

theorem updateTable_eq_of_not_mem (l : List (String × α)) (k : String)
    (f : α → α) (h : ∀ p ∈ l, p.1 ≠ k) :
    updateTable l k f = l := by
  induction l with
  | nil => rfl
  | cons p t ih =>
    have hp : p.1 ≠ k := h p (List.mem_cons_self p t)
    simp only [updateTable, List.map_cons]
    rw [if_neg (by simp [hp])]
    have := ih (fun q hq => h q (List.mem_cons_of_mem p hq))
    simp only [updateTable] at this
    rw [this]

theorem lookupTable_eq_some_of_mem (l : List (String × α)) (k : String)
    (a : α) (hnd : (l.map (fun p => p.1)).Nodup) (hm : (k, a) ∈ l) :
    lookupTable l k = some a := by
  induction l with
  | nil => cases hm
  | cons p t ih =>
    simp only [List.map_cons, List.nodup_cons] at hnd
    rcases List.mem_cons.mp hm with h | h
    · simp [lookupTable, List.find?, ← h]
    · have hp : p.1 ≠ k := by
        intro hk
        exact hnd.1 (hk ▸ List.mem_map.mpr ⟨(k, a), h, rfl⟩)
      have := ih hnd.2 h
      simp only [lookupTable, List.find?]
      rw [show (p.1 == k) = false by simp [hp]]
      exact this

theorem ne_of_lookup_none (l : List (String × α)) (k : String)
    (h : lookupTable l k = Option.none) : ∀ p ∈ l, p.1 ≠ k := by
  induction l with
  | nil => intro p hp; cases hp
  | cons p t ih =>
    intro q hq
    rcases List.mem_cons.mp hq with hq | hq
    · subst hq
      intro hk
      simp [lookupTable, List.find?, hk] at h
    · refine ih ?_ q hq
      simp only [lookupTable, List.find?] at h ⊢
      rcases hbe : (p.1 == k) with _ | _
      · rw [hbe] at h; exact h
      · rw [hbe] at h; simp at h

theorem countP_updateTable_congr (l : List (String × α)) (k : String)
    (f : α → α) (q : String × α → Bool)
    (h : ∀ p ∈ l, p.1 = k → q (p.1, f p.2) = q p) :
    (updateTable l k f).countP q = l.countP q := by
  induction l with
  | nil => rfl
  | cons p t ih =>
    have ht : (updateTable t k f).countP q = t.countP q :=
      ih (fun r hr hk => h r (List.mem_cons_of_mem p hr) hk)
    simp only [updateTable, List.map_cons] at ht ⊢
    by_cases hp : p.1 = k
    · have hhead :
          (if (p.1 == k) = true then (p.1, f p.2) else p) = (p.1, f p.2) := by
        simp [hp]
      rw [hhead, List.countP_cons, List.countP_cons,
          h p (List.mem_cons_self p t) hp, ht]
    · have hhead : (if (p.1 == k) = true then (p.1, f p.2) else p) = p := by
        simp [hp]
      rw [hhead, List.countP_cons, List.countP_cons, ht]

theorem countP_updateTable_incr (l : List (String × α)) (k : String)
    (f : α → α) (q : String × α → Bool) (a : α)
    (hnd : (l.map (fun p => p.1)).Nodup) (hl : lookupTable l k = some a)
    (hqa : q (k, a) = false) (hqf : q (k, f a) = true) :
    (updateTable l k f).countP q = l.countP q + 1 := by
  induction l with
  | nil => simp [lookupTable] at hl
  | cons p t ih =>
    simp only [List.map_cons, List.nodup_cons] at hnd
    by_cases hp : p.1 = k
    · have hfind : List.find? (fun r => r.1 == k) (p :: t) = some p :=
        List.find?_cons_of_pos _ (by simp [hp])
      have hpa : p.2 = a := by
        simp only [lookupTable, hfind, Option.map_some'] at hl
        exact Option.some.inj hl
      have ht : updateTable t k f = t := by
        refine updateTable_eq_of_not_mem t k f ?_
        intro r hr hk
        apply hnd.1
        rw [hp]
        exact List.mem_map.mpr ⟨r, hr, hk⟩
      simp only [updateTable, List.map_cons]
      have hhead :
          (if (p.1 == k) = true then (p.1, f p.2) else p) = (p.1, f p.2) := by
        simp [hp]
      rw [hhead, List.countP_cons, List.countP_cons]
      have h1 : q (p.1, f p.2) = true := by rw [hp, hpa]; exact hqf
      have h2 : q p = false := by
        rw [show p = (p.1, p.2) from rfl, hp, hpa]
        exact hqa
      rw [h1, h2]
      simp only [updateTable] at ht
      rw [ht]
      simp
    · have hl' : lookupTable t k = some a := by
        simp only [lookupTable] at hl ⊢
        rw [List.find?_cons_of_neg _ (by simp [hp])] at hl
        exact hl
      have ht := ih hnd.2 hl'
      simp only [updateTable, List.map_cons]
      have hhead : (if (p.1 == k) = true then (p.1, f p.2) else p) = p := by
        simp [hp]
      rw [hhead, List.countP_cons, List.countP_cons]
      simp only [updateTable] at ht
      omega

theorem countP_updateTable_decr (l : List (String × α)) (k : String)
    (f : α → α) (q : String × α → Bool) (a : α)
    (hnd : (l.map (fun p => p.1)).Nodup) (hl : lookupTable l k = some a)
    (hqa : q (k, a) = true) (hqf : q (k, f a) = false) :
    l.countP q = (updateTable l k f).countP q + 1 := by
  induction l with
  | nil => simp [lookupTable] at hl
  | cons p t ih =>
    simp only [List.map_cons, List.nodup_cons] at hnd
    by_cases hp : p.1 = k
    · have hfind : List.find? (fun r => r.1 == k) (p :: t) = some p :=
        List.find?_cons_of_pos _ (by simp [hp])
      have hpa : p.2 = a := by
        simp only [lookupTable, hfind, Option.map_some'] at hl
        exact Option.some.inj hl
      have ht : updateTable t k f = t := by
        refine updateTable_eq_of_not_mem t k f ?_
        intro r hr hk
        apply hnd.1
        rw [hp]
        exact List.mem_map.mpr ⟨r, hr, hk⟩
      simp only [updateTable, List.map_cons]
      have hhead :
          (if (p.1 == k) = true then (p.1, f p.2) else p) = (p.1, f p.2) := by
        simp [hp]
      rw [hhead, List.countP_cons, List.countP_cons]
      have h1 : q (p.1, f p.2) = false := by rw [hp, hpa]; exact hqf
      have h2 : q p = true := by
        rw [show p = (p.1, p.2) from rfl, hp, hpa]
        exact hqa
      rw [h1, h2]
      simp only [updateTable] at ht
      rw [ht]
      simp
    · have hl' : lookupTable t k = some a := by
        simp only [lookupTable] at hl ⊢
        rw [List.find?_cons_of_neg _ (by simp [hp])] at hl
        exact hl
      have ht := ih hnd.2 hl'
      simp only [updateTable, List.map_cons]
      have hhead : (if (p.1 == k) = true then (p.1, f p.2) else p) = p := by
        simp [hp]
      rw [hhead, List.countP_cons, List.countP_cons]
      simp only [updateTable] at ht
      omega

theorem find?_append_of_none {β : Type} (l₁ l₂ : List β) (q : β → Bool)
    (h : l₁.find? q = Option.none) :
    (l₁ ++ l₂).find? q = l₂.find? q := by
  induction l₁ with
  | nil => rfl
  | cons p t ih =>
    simp only [List.cons_append, List.find?] at h ⊢
    rcases hq : q p with _ | _
    · rw [hq] at h; exact ih h
    · rw [hq] at h; simp at h

end TableLemmas

section OpLemmas

theorem getRound_updateUser (s : Store) (u : String) (f : UserRec → UserRec)
    (r : String) : (s.updateUser u f).getRound r = s.getRound r := rfl

theorem getUser_updateRound (s : Store) (rid : String) (f : Round → Round)
    (u : String) : (s.updateRound rid f).getUser u = s.getUser u := rfl

theorem getRound_updateRound_self (s : Store) (rid : String)
    (f : Round → Round) :
    (s.updateRound rid f).getRound rid = (s.getRound rid).map f :=
  lookupTable_updateTable_self s.rounds rid f

theorem getRound_updateRound_ne (s : Store) (rid rid' : String)
    (f : Round → Round) (h : rid' ≠ rid) :
    (s.updateRound rid f).getRound rid' = s.getRound rid' :=
  lookupTable_updateTable_ne s.rounds rid rid' f h

theorem getUser_updateUser_self (s : Store) (u : String)
    (f : UserRec → UserRec) :
    (s.updateUser u f).getUser u = (s.getUser u).map f :=
  lookupTable_updateTable_self s.users u f

theorem followRound_noop (s : Store) (u r : String) (U : UserRec)
    (hu : s.getUser u = some U) (hmem : r ∈ U.followedRounds) :
    followRound s u r = Except.ok s := by
  unfold followRound
  rw [hu]
  simp [hmem]

theorem followRound_new (s : Store) (u r : String) (U : UserRec)
    (hu : s.getUser u = some U) (hmem : r ∉ U.followedRounds)
    (R : Round) (hR : s.getRound r = some R) :
    followRound s u r = Except.ok
      (Store.updateRound
        (s.updateUser u
          (fun u0 => { u0 with followedRounds := U.followedRounds ++ [r] }))
        r (fun r0 => { r0 with followerCount := R.followerCount + 1 })) := by
  unfold followRound
  rw [hu]
  have hc : U.followedRounds.contains r = false := by
    simpa using hmem
  simp only [hc, Bool.false_eq_true, if_false]
  rw [getRound_updateUser, hR]

theorem followRound_skip (s : Store) (u r : String) (U : UserRec)
    (hu : s.getUser u = some U) (hmem : r ∉ U.followedRounds)
    (hr : s.getRound r = Option.none) :
    followRound s u r = Except.ok
      (s.updateUser u
        (fun u0 => { u0 with followedRounds := U.followedRounds ++ [r] })) := by
  unfold followRound
  rw [hu]
  have hc : U.followedRounds.contains r = false := by
    simpa using hmem
  simp only [hc, Bool.false_eq_true, if_false]
  rw [getRound_updateUser, hr]

theorem unfollowRound_noop (s : Store) (u r : String) (U : UserRec)
    (hu : s.getUser u = some U) (hmem : r ∉ U.followedRounds) :
    unfollowRound s u r = Except.ok s := by
  unfold unfollowRound
  rw [hu]
  have hc : U.followedRounds.contains r = false := by
    simpa using hmem
  simp only [hc, Bool.false_eq_true, if_false]

theorem unfollowRound_active (s : Store) (u r : String) (U : UserRec)
    (hu : s.getUser u = some U) (hmem : r ∈ U.followedRounds)
    (R : Round) (hR : s.getRound r = some R) :
    unfollowRound s u r = Except.ok
      (Store.updateRound
        (s.updateUser u
          (fun u0 => { u0 with
            followedRounds := U.followedRounds.filter (fun id => id != r) }))
        r
        (fun r0 => { r0 with
          followerCount := max (R.followerCount - 1) 0 })) := by
  unfold unfollowRound
  rw [hu]
  simp only [show U.followedRounds.contains r = true by simpa using hmem,
    if_true]
  rw [getRound_updateUser, hR]

theorem followRoundN_noop (t : Store) (u r : String) (V : UserRec)
    (hv : t.getUser u = some V) (hmem : r ∈ V.followedRounds) (m : Nat) :
    followRoundN t u r m = some t := by
  induction m with
  | zero => rfl
  | succ n ih =>
    unfold followRoundN
    rw [followRound_noop t u r V hv hmem]
    exact ih

end OpLemmas

/-- C5: for every limit, getTrendingRounds returns min(limit, number of
stored rounds) rounds — hence never more than the limit, and fewer only
when fewer rounds exist — and every pair of returned rounds (a, b) with a
before b satisfies a.createdAt greater than b.createdAt, or equal
createdAt and a.followerCount at least b.followerCount. -/
theorem getTrendingRounds_correct (s : Store) (limitCount : Nat) :
    (getTrendingRounds s limitCount).length
        = min limitCount s.rounds.length ∧
    (getTrendingRounds s limitCount).Pairwise (fun a b =>
      b.2.createdAt < a.2.createdAt ∨
        (a.2.createdAt = b.2.createdAt ∧
          b.2.followerCount ≤ a.2.followerCount)) := by
  constructor
  · unfold getTrendingRounds
    rw [List.length_take,
      (List.perm_insertionSort trendingBefore s.rounds).length_eq]
  · have hs := List.sorted_insertionSort trendingBefore s.rounds
    exact List.Pairwise.sublist (List.take_sublist limitCount _) hs

/-- C10: following a round id for which no round document exists succeeds
without error, adds the id to the user's followedRounds (so isFollowing
becomes true), and leaves every round record unchanged because the
counter-increment step is silently skipped. -/
theorem followRound_missing_round (s : Store) (u r : String) (U : UserRec)
    (hu : s.getUser u = some U) (hmem : r ∉ U.followedRounds)
    (hr : s.getRound r = Option.none) :
    ∃ s', followRound s u r = Except.ok s' ∧ s'.rounds = s.rounds ∧
      isFollowing s' u r = true := by
  refine ⟨_, followRound_skip s u r U hu hmem hr, rfl, ?_⟩
  unfold isFollowing
  rw [getUser_updateUser_self, hu]
  simp

/-- Closed witness for followRound_missing_round: in the store whose only
user follows nothing and whose rounds collection is empty, following the
absent round R succeeds, leaves the (empty) rounds unchanged and makes
isFollowing true. -/
theorem followRound_missing_round_witness :
    demoStoreNoRound.getUser "U" = some demoUser ∧
    ("R" ∉ demoUser.followedRounds ∧
      ∃ s', followRound demoStoreNoRound "U" "R" = Except.ok s' ∧
        s'.rounds = demoStoreNoRound.rounds ∧
        isFollowing s' "U" "R" = true) :=
  ⟨by decide, by decide,
    followRound_missing_round demoStoreNoRound "U" "R" demoUser (by decide)
      (by decide) (by decide)⟩

/-- C3: starting from a user who exists and does not yet follow round r,
with the round present at count c, N sequential followRound calls (N at
least 1) all succeed, leave the follower count at exactly c + 1 (not
c + N) and leave isFollowing true; moreover a followRound call by a user
already following r is a no-op returning success. -/
theorem followRound_idempotent (s : Store) (u r : String) (U : UserRec)
    (hu : s.getUser u = some U) (hmem : r ∉ U.followedRounds)
    (R : Round) (hR : s.getRound r = some R) (N : Nat) (hN : 1 ≤ N) :
    (∃ s', followRoundN s u r N = some s' ∧
      (∃ R', Store.getRound s' r = some R' ∧
        R'.followerCount = R.followerCount + 1) ∧
      isFollowing s' u r = true) ∧
    (∀ t V, Store.getUser t u = some V → r ∈ V.followedRounds →
      followRound t u r = Except.ok t) := by
  constructor
  · obtain ⟨m, rfl⟩ : ∃ m, N = m + 1 := ⟨N - 1, by omega⟩
    set s2 := Store.updateRound
      (s.updateUser u
        (fun u0 => { u0 with followedRounds := U.followedRounds ++ [r] }))
      r (fun r0 => { r0 with followerCount := R.followerCount + 1 })
      with hs2
    have hstep : followRound s u r = Except.ok s2 :=
      followRound_new s u r U hu hmem R hR
    have hu2 : s2.getUser u
        = some { U with followedRounds := U.followedRounds ++ [r] } := by
      rw [hs2, getUser_updateRound, getUser_updateUser_self, hu]
      rfl
    have hrest : followRoundN s2 u r m = some s2 :=
      followRoundN_noop s2 u r _ hu2 (by simp) m
    refine ⟨s2, ?_, ⟨{ R with followerCount := R.followerCount + 1 }, ?_, rfl⟩,
      ?_⟩
    · unfold followRoundN
      rw [hstep]
      exact hrest
    · rw [hs2, getRound_updateRound_self, getRound_updateUser, hR]
      rfl
    · unfold isFollowing
      rw [hu2]
      simp
  · intro t V hv hmemv
    exact followRound_noop t u r V hv hmemv

/-- Closed witness for followRound_idempotent: three sequential follows of
round R by user U in the demo store leave the follower count at 1. -/
theorem followRound_idempotent_witness :
    1 ≤ 3 ∧
    (∃ s', followRoundN demoStore "U" "R" 3 = some s' ∧
      (∃ R', Store.getRound s' "R" = some R' ∧
        R'.followerCount = demoRound.followerCount + 1) ∧
      isFollowing s' "U" "R" = true) :=
  ⟨by decide,
    (followRound_idempotent demoStore "U" "R" demoUser (by decide)
      (by decide) demoRound (by decide) 3 (by decide)).1⟩

/-- C4: with the user present, unfollowRound is the identity (no user and
no round change) when the round is not followed, and otherwise removes the
round id from followedRounds and writes max(count - 1, 0) as the new
follower count, which is never negative even when the stored count was
already inconsistent. -/
theorem unfollowRound_spec (s : Store) (u r : String) (U : UserRec)
    (hu : s.getUser u = some U) :
    (r ∉ U.followedRounds → unfollowRound s u r = Except.ok s) ∧
    (r ∈ U.followedRounds → ∀ R, s.getRound r = some R →
      ∃ s', unfollowRound s u r = Except.ok s' ∧
        (∃ V, Store.getUser s' u = some V ∧
          V.followedRounds = U.followedRounds.filter (fun id => id != r)) ∧
        (∃ R', Store.getRound s' r = some R' ∧
          R'.followerCount = max (R.followerCount - 1) 0 ∧
          0 ≤ R'.followerCount)) := by
  constructor
  · intro hmem
    exact unfollowRound_noop s u r U hu hmem
  · intro hmem R hR
    refine ⟨_, unfollowRound_active s u r U hu hmem R hR,
      ⟨{ U with
          followedRounds := U.followedRounds.filter (fun id => id != r) },
        ?_, rfl⟩,
      ⟨{ R with followerCount := max (R.followerCount - 1) 0 },
        ?_, rfl, ?_⟩⟩
    · rw [getUser_updateRound, getUser_updateUser_self, hu]
      rfl
    · rw [getRound_updateRound_self, getRound_updateUser, hR]
      rfl
    · exact le_max_right _ _

/-- Closed witness for unfollowRound_spec: unfollowing in a store whose
counter is already 0 while the user follows R floors the count at 0. -/
theorem unfollowRound_spec_witness :
    demoRound.followerCount = 0 ∧
    (∃ s', unfollowRound demoStoreFollowing "U" "R" = Except.ok s' ∧
      (∃ V, Store.getUser s' "U" = some V ∧
        V.followedRounds =
          (["R"] : List String).filter (fun id => id != "R")) ∧
      (∃ R', Store.getRound s' "R" = some R' ∧
        R'.followerCount = max (demoRound.followerCount - 1) 0 ∧
        0 ≤ R'.followerCount)) :=
  ⟨by decide,
    (unfollowRound_spec demoStoreFollowing "U" "R"
      { demoUser with followedRounds := ["R"] } (by decide)).2 (by decide)
      demoRound (by decide)⟩

section IntroLemmas

theorem getRound_addRequest (s : Store) (e : String × IntroReq)
    (r : String) :
    Store.getRound
      { s with requests := s.requests ++ [e], nextId := s.nextId + 1 } r
      = s.getRound r := rfl

theorem createIntroRequest_found (s : Store) (i r name : String)
    (msg : Option String) (now : Nat) (id : String) (q : IntroReq)
    (hf : findIntroRequest s i r = some (id, q)) :
    createIntroRequest s i r name msg now = (id, s) := by
  unfold createIntroRequest
  rw [hf]

theorem createIntroRequest_new (s : Store) (i r name : String)
    (msg : Option String) (now : Nat)
    (hf : findIntroRequest s i r = Option.none)
    (R : Round) (hR : s.getRound r = some R) :
    createIntroRequest s i r name msg now =
      (freshDocId s.nextId,
        Store.updateRound
          { s with
            requests := s.requests ++
              [(freshDocId s.nextId,
                { investorId := i, roundId := r, startupName := name,
                  status := .pending, createdAt := now, message := msg })],
            nextId := s.nextId + 1 }
          r (fun r0 => { r0 with
            introRequestCount := R.introRequestCount + 1 })) := by
  unfold createIntroRequest
  rw [hf]
  simp only [getRound_addRequest, hR]

theorem createIntroRequest_new_noRound (s : Store) (i r name : String)
    (msg : Option String) (now : Nat)
    (hf : findIntroRequest s i r = Option.none)
    (hr : s.getRound r = Option.none) :
    createIntroRequest s i r name msg now =
      (freshDocId s.nextId,
        { s with
          requests := s.requests ++
            [(freshDocId s.nextId,
              { investorId := i, roundId := r, startupName := name,
                status := .pending, createdAt := now, message := msg })],
          nextId := s.nextId + 1 }) := by
  unfold createIntroRequest
  rw [hf]
  simp only [getRound_addRequest, hr]

theorem findIntroRequest_updateRound (s : Store) (rid : String)
    (f : Round → Round) (i r : String) :
    findIntroRequest (s.updateRound rid f) i r = findIntroRequest s i r :=
  rfl

theorem introPairCount_updateRound (s : Store) (rid : String)
    (f : Round → Round) (i r : String) :
    introPairCount (s.updateRound rid f) i r = introPairCount s i r := rfl

theorem findIntroRequest_eq_none (s : Store) (i r : String)
    (h : introPairCount s i r = 0) :
    findIntroRequest s i r = Option.none := by
  unfold introPairCount at h
  unfold findIntroRequest
  rw [List.find?_eq_none]
  intro x hx
  exact List.countP_eq_zero.mp h x hx

theorem findIntroRequest_after_insert (s : Store) (i r : String)
    (id : String) (e : IntroReq)
    (hf : findIntroRequest s i r = Option.none)
    (hq : (e.investorId == i && e.roundId == r) = true) :
    findIntroRequest
      { s with requests := s.requests ++ [(id, e)], nextId := s.nextId + 1 }
      i r = some (id, e) := by
  unfold findIntroRequest at hf ⊢
  show List.find? _ (s.requests ++ [(id, e)]) = some (id, e)
  rw [find?_append_of_none _ _ _ hf]
  exact List.find?_cons_of_pos _ hq

theorem introPairCount_after_insert (s : Store) (i r : String)
    (id : String) (e : IntroReq)
    (hq : (e.investorId == i && e.roundId == r) = true) :
    introPairCount
      { s with requests := s.requests ++ [(id, e)], nextId := s.nextId + 1 }
      i r = introPairCount s i r + 1 := by
  unfold introPairCount
  show List.countP _ (s.requests ++ [(id, e)]) = _
  rw [List.countP_append]
  simp [hq]

theorem createIntroRequestN_found (t : Store) (i r name : String)
    (msg : Option String) (now : Nat) (id : String) (q : IntroReq)
    (hf : findIntroRequest t i r = some (id, q)) (m : Nat) :
    createIntroRequestN t i r name msg now m = (List.replicate m id, t) := by
  induction m with
  | zero => rfl
  | succ n ih =>
    unfold createIntroRequestN
    rw [createIntroRequest_found t i r name msg now id q hf]
    show (id :: (createIntroRequestN t i r name msg now n).1,
          (createIntroRequestN t i r name msg now n).2)
        = (List.replicate (n + 1) id, t)
    rw [ih]
    rw [List.replicate_succ]

end IntroLemmas

/-- C1: starting from a store with no intro request for (i, r) and the
round present, N sequential createIntroRequest calls (N at least 1) leave
exactly one stored request for the pair, increment the round's
introRequestCount by exactly 1 (not N), and all N calls return the same
request id; moreover any call that finds an existing record for the pair
returns its id and changes nothing (the embedded operation is total, so
it cannot error). -/
theorem createIntroRequest_idempotent (s : Store) (i r name : String)
    (msg : Option String) (now : Nat) (R : Round)
    (hR : s.getRound r = some R) (h0 : introPairCount s i r = 0)
    (N : Nat) (hN : 1 ≤ N) :
    introPairCount (createIntroRequestN s i r name msg now N).2 i r = 1 ∧
    (∃ R', Store.getRound (createIntroRequestN s i r name msg now N).2 r
        = some R' ∧ R'.introRequestCount = R.introRequestCount + 1) ∧
    (createIntroRequestN s i r name msg now N).1
      = List.replicate N (freshDocId s.nextId) ∧
    (∀ t id q, findIntroRequest t i r = some (id, q) →
      createIntroRequest t i r name msg now = (id, t)) := by
  obtain ⟨m, rfl⟩ : ∃ m, N = m + 1 := ⟨N - 1, by omega⟩
  have hf : findIntroRequest s i r = Option.none :=
    findIntroRequest_eq_none s i r h0
  set e : IntroReq :=
    { investorId := i, roundId := r, startupName := name,
      status := .pending, createdAt := now, message := msg } with he
  set sIns : Store :=
    { s with requests := s.requests ++ [(freshDocId s.nextId, e)],
             nextId := s.nextId + 1 } with hsIns
  set s2 : Store := Store.updateRound sIns r
    (fun r0 => { r0 with introRequestCount := R.introRequestCount + 1 })
    with hs2
  have hstep : createIntroRequest s i r name msg now
      = (freshDocId s.nextId, s2) :=
    createIntroRequest_new s i r name msg now hf R hR
  have hq : (e.investorId == i && e.roundId == r) = true := by
    rw [he]
    simp
  have hfind2 : findIntroRequest s2 i r = some (freshDocId s.nextId, e) := by
    rw [hs2, findIntroRequest_updateRound, hsIns]
    exact findIntroRequest_after_insert s i r _ e hf hq
  have hcount2 : introPairCount s2 i r = 1 := by
    rw [hs2, introPairCount_updateRound, hsIns,
      introPairCount_after_insert s i r _ e hq, h0]
  have hround2 : s2.getRound r
      = some { R with introRequestCount := R.introRequestCount + 1 } := by
    rw [hs2, getRound_updateRound_self, hsIns, getRound_addRequest, hR]
    rfl
  have hrun : createIntroRequestN s i r name msg now (m + 1)
      = (freshDocId s.nextId :: List.replicate m (freshDocId s.nextId),
         s2) := by
    unfold createIntroRequestN
    rw [hstep]
    show (freshDocId s.nextId
            :: (createIntroRequestN s2 i r name msg now m).1,
          (createIntroRequestN s2 i r name msg now m).2) = _
    rw [createIntroRequestN_found s2 i r name msg now _ e hfind2 m]
  refine ⟨?_,
    ⟨{ R with introRequestCount := R.introRequestCount + 1 }, ?_, rfl⟩,
    ?_, ?_⟩
  · rw [hrun]
    exact hcount2
  · rw [hrun]
    exact hround2
  · rw [hrun, List.replicate_succ]
  · intro t id q hft
    exact createIntroRequest_found t i r name msg now id q hft

/-- Closed witness for createIntroRequest_idempotent: two sequential
createIntroRequest calls for the pair (I, R) in the demo store leave one
stored request, a count of 1, and return the same id twice. -/
theorem createIntroRequest_idempotent_witness :
    introPairCount demoStore "I" "R" = 0 ∧
    introPairCount
      (createIntroRequestN demoStore "I" "R" "Acme" Option.none 7 2).2
      "I" "R" = 1 ∧
    (createIntroRequestN demoStore "I" "R" "Acme" Option.none 7 2).1
      = List.replicate 2 (freshDocId demoStore.nextId) :=
  ⟨by decide,
    (createIntroRequest_idempotent demoStore "I" "R" "Acme" Option.none 7
      demoRound (by decide) (by decide) 2 (by decide)).1,
    (createIntroRequest_idempotent demoStore "I" "R" "Acme" Option.none 7
      demoRound (by decide) (by decide) 2 (by decide)).2.2.1⟩

section CasesLemmas

theorem followRound_ok_cases (s : Store) (u r : String) (s' : Store)
    (h : followRound s u r = Except.ok s') :
    (∃ U, s.getUser u = some U ∧ r ∈ U.followedRounds ∧ s' = s) ∨
    (∃ U, s.getUser u = some U ∧ r ∉ U.followedRounds ∧
      s.getRound r = Option.none ∧
      s' = s.updateUser u
        (fun u0 => { u0 with followedRounds := U.followedRounds ++ [r] })) ∨
    (∃ U R, s.getUser u = some U ∧ r ∉ U.followedRounds ∧
      s.getRound r = some R ∧
      s' = Store.updateRound
        (s.updateUser u
          (fun u0 => { u0 with followedRounds := U.followedRounds ++ [r] }))
        r (fun r0 => { r0 with followerCount := R.followerCount + 1 })) := by
  unfold followRound at h
  split at h
  · cases h
  next U hu =>
    dsimp only at h
    split at h
    next hc =>
      left
      exact ⟨U, hu, by simpa using hc, (Except.ok.inj h).symm⟩
    next hc =>
      split at h
      next hr =>
        right
        left
        exact ⟨U, hu, by simpa using hc, hr, (Except.ok.inj h).symm⟩
      next R hr =>
        right
        right
        exact ⟨U, R, hu, by simpa using hc, hr, (Except.ok.inj h).symm⟩

theorem unfollowRound_ok_cases (s : Store) (u r : String) (s' : Store)
    (h : unfollowRound s u r = Except.ok s') :
    (∃ U, s.getUser u = some U ∧ r ∉ U.followedRounds ∧ s' = s) ∨
    (∃ U, s.getUser u = some U ∧ r ∈ U.followedRounds ∧
      s.getRound r = Option.none ∧
      s' = s.updateUser u
        (fun u0 => { u0 with
          followedRounds := U.followedRounds.filter (fun id => id != r) })) ∨
    (∃ U R, s.getUser u = some U ∧ r ∈ U.followedRounds ∧
      s.getRound r = some R ∧
      s' = Store.updateRound
        (s.updateUser u
          (fun u0 => { u0 with
            followedRounds :=
              U.followedRounds.filter (fun id => id != r) }))
        r (fun r0 => { r0 with
          followerCount := max (R.followerCount - 1) 0 })) := by
  unfold unfollowRound at h
  split at h
  · cases h
  next U hu =>
    dsimp only at h
    split at h
    next hc =>
      split at h
      next hr =>
        right
        left
        exact ⟨U, hu, by simpa using hc, hr, (Except.ok.inj h).symm⟩
      next R hr =>
        right
        right
        exact ⟨U, R, hu, by simpa using hc, hr, (Except.ok.inj h).symm⟩
    next hc =>
      left
      exact ⟨U, hu, by simpa using hc, (Except.ok.inj h).symm⟩

theorem createIntroRequest_cases (s : Store) (i r name : String)
    (msg : Option String) (now : Nat) :
    (∃ id q, findIntroRequest s i r = some (id, q) ∧
      createIntroRequest s i r name msg now = (id, s)) ∨
    (findIntroRequest s i r = Option.none ∧
      s.getRound r = Option.none ∧
      createIntroRequest s i r name msg now =
        (freshDocId s.nextId,
          { s with
            requests := s.requests ++
              [(freshDocId s.nextId,
                { investorId := i, roundId := r, startupName := name,
                  status := .pending, createdAt := now, message := msg })],
            nextId := s.nextId + 1 })) ∨
    (∃ R, findIntroRequest s i r = Option.none ∧
      s.getRound r = some R ∧
      createIntroRequest s i r name msg now =
        (freshDocId s.nextId,
          Store.updateRound
            { s with
              requests := s.requests ++
                [(freshDocId s.nextId,
                  { investorId := i, roundId := r, startupName := name,
                    status := .pending, createdAt := now, message := msg })],
              nextId := s.nextId + 1 }
            r (fun r0 => { r0 with
              introRequestCount := R.introRequestCount + 1 }))) := by
  cases hf : findIntroRequest s i r with
  | some p =>
    left
    exact ⟨p.1, p.2, rfl, createIntroRequest_found s i r name msg now p.1 p.2
      (by rw [hf])⟩
  | none =>
    cases hr : s.getRound r with
    | none =>
      right
      left
      exact ⟨rfl, rfl,
        createIntroRequest_new_noRound s i r name msg now hf hr⟩
    | some R =>
      right
      right
      exact ⟨R, rfl, rfl, createIntroRequest_new s i r name msg now hf R hr⟩

theorem updateFundraisingRound_ok (s : Store) (rid : String)
    (u : RoundUpdates) (now : Nat) (s' : Store)
    (h : updateFundraisingRound s rid u now = Except.ok s') :
    ∃ R0, s.getRound rid = some R0 ∧
      s' = s.updateRound rid (fun r =>
        { companyName := u.companyName.getD r.companyName
          logoUrl := u.logoUrl.getD r.logoUrl
          raisingAmount := u.raisingAmount.getD r.raisingAmount
          currency := u.currency.getD r.currency
          description := u.description.getD r.description
          deckUrl := u.deckUrl.getD r.deckUrl
          founderId := u.founderId.getD r.founderId
          createdAt := r.createdAt
          updatedAt := now
          followerCount := u.followerCount.getD r.followerCount
          introRequestCount := u.introRequestCount.getD r.introRequestCount }) := by
  unfold updateFundraisingRound at h
  split at h
  · cases h
  next R0 hr =>
    exact ⟨R0, hr, (Except.ok.inj h).symm⟩

end CasesLemmas

section ContainsLemmas

theorem mem_of_lookup_eq_some {α : Type} (l : List (String × α)) (k : String)
    (a : α) (h : lookupTable l k = some a) : (k, a) ∈ l := by
  induction l with
  | nil => simp [lookupTable] at h
  | cons p t ih =>
    by_cases hp : p.1 = k
    · have hfind : List.find? (fun r => r.1 == k) (p :: t) = some p :=
        List.find?_cons_of_pos _ (by simp [hp])
      have : p.2 = a := by
        simp only [lookupTable, hfind, Option.map_some'] at h
        exact Option.some.inj h
      rw [← hp, ← this]
      exact List.mem_cons_self p t
    · have h' : lookupTable t k = some a := by
        simp only [lookupTable] at h ⊢
        rw [List.find?_cons_of_neg _ (by simp [hp])] at h
        exact h
      exact List.mem_cons_of_mem p (ih h')

theorem value_eq_of_mem_of_lookup {α : Type} (l : List (String × α))
    (a : α) (p : String × α) (hnd : (l.map (fun q => q.1)).Nodup)
    (hp : p ∈ l) (h : lookupTable l p.1 = some a) : p.2 = a := by
  have h1 : lookupTable l p.1 = some p.2 :=
    lookupTable_eq_some_of_mem l p.1 p.2 hnd hp
  rw [h1] at h
  exact Option.some.inj h

theorem contains_append_singleton (l : List String) (a x : String)
    (h : x ≠ a) : (l ++ [a]).contains x = l.contains x := by
  by_cases hx : x ∈ l
  · simp [hx]
  · simp [hx, h]

theorem contains_append_self (l : List String) (a : String) :
    (l ++ [a]).contains a = true := by
  simp

theorem contains_filter_ne (l : List String) (r x : String) (h : x ≠ r) :
    (l.filter (fun id => id != r)).contains x = l.contains x := by
  by_cases hx : x ∈ l
  · have : x ∈ l.filter (fun id => id != r) :=
      List.mem_filter.mpr ⟨hx, by simp [h]⟩
    simp [hx, this]
  · have : x ∉ l.filter (fun id => id != r) :=
      fun hc => hx (List.mem_filter.mp hc).1
    simp [hx, this]

theorem contains_filter_self (l : List String) (r : String) :
    (l.filter (fun id => id != r)).contains r = false := by
  have : r ∉ l.filter (fun id => id != r) := by
    intro hc
    have := (List.mem_filter.mp hc).2
    simp at this
  simp [this]

end ContainsLemmas

section CountLemmas

theorem usersFollowing_follow_self (s : Store) (u r : String) (U : UserRec)
    (hnd : (s.users.map (fun p => p.1)).Nodup) (hu : s.getUser u = some U)
    (hm : r ∉ U.followedRounds) :
    usersFollowing
      (s.updateUser u
        (fun u0 => { u0 with followedRounds := U.followedRounds ++ [r] })) r
      = usersFollowing s r + 1 := by
  have h := countP_updateTable_incr s.users u
    (fun u0 => { u0 with followedRounds := U.followedRounds ++ [r] })
    (fun p => p.2.followedRounds.contains r) U hnd hu
    (by simpa using hm) (by simp)
  exact h

theorem usersFollowing_unfollow_self (s : Store) (u r : String) (U : UserRec)
    (hnd : (s.users.map (fun p => p.1)).Nodup) (hu : s.getUser u = some U)
    (hm : r ∈ U.followedRounds) :
    usersFollowing s r
      = usersFollowing
          (s.updateUser u
            (fun u0 => { u0 with
              followedRounds :=
                U.followedRounds.filter (fun id => id != r) })) r + 1 := by
  have h := countP_updateTable_decr s.users u
    (fun u0 => { u0 with
      followedRounds := U.followedRounds.filter (fun id => id != r) })
    (fun p => p.2.followedRounds.contains r) U hnd hu
    (by simpa using hm)
    (by simp)
  exact h

theorem usersFollowing_updateUser_other (s : Store) (u x : String)
    (U : UserRec) (g : UserRec → UserRec)
    (hnd : (s.users.map (fun p => p.1)).Nodup) (hu : s.getUser u = some U)
    (hx : (g U).followedRounds.contains x = U.followedRounds.contains x) :
    usersFollowing (s.updateUser u g) x = usersFollowing s x := by
  apply countP_updateTable_congr
  intro p hp hk
  have hval : p.2 = U := value_eq_of_mem_of_lookup s.users U p hnd hp
    (by rw [hk]; exact hu)
  show ((g p.2).followedRounds.contains x) = (p.2.followedRounds.contains x)
  rw [hval]
  exact hx

theorem usersFollowing_pos (s : Store) (u r : String) (U : UserRec)
    (hu : s.getUser u = some U) (hm : r ∈ U.followedRounds) :
    1 ≤ usersFollowing s r := by
  have hmem : (u, U) ∈ s.users := mem_of_lookup_eq_some s.users u U hu
  have : 0 < s.users.countP (fun p => p.2.followedRounds.contains r) :=
    List.countP_pos_iff.mpr ⟨(u, U), hmem, by simpa using hm⟩
  exact this

theorem introCountFor_append (s : Store) (id : String) (e : IntroReq)
    (x : String) :
    introCountFor
      { s with requests := s.requests ++ [(id, e)], nextId := s.nextId + 1 }
      x = introCountFor s x + (if (e.roundId == x) = true then 1 else 0) := by
  unfold introCountFor
  show List.countP _ (s.requests ++ [(id, e)]) = _
  rw [List.countP_append]
  simp [List.countP_cons]

end CountLemmas

section FrameLemmas

theorem usersFollowing_updateRound (s : Store) (rid : String)
    (f : Round → Round) (x : String) :
    usersFollowing (s.updateRound rid f) x = usersFollowing s x := rfl

theorem introCountFor_updateRound (s : Store) (rid : String)
    (f : Round → Round) (x : String) :
    introCountFor (s.updateRound rid f) x = introCountFor s x := rfl

end FrameLemmas

/-- C6: in a well-formed store in which, for every stored round,
followerCount equals the number of distinct users whose followedRounds
contains the round id and introRequestCount equals the number of stored
intro-request records referencing the round, each successful ledger
operation (followRound, unfollowRound, createIntroRequest) preserves both
equalities. -/
theorem ledger_preserves_invariants (s : Store) (hwf : StoreWF s)
    (hfi : FollowerInv s) (hii : IntroInv s) :
    (∀ u r s', followRound s u r = Except.ok s' →
      FollowerInv s' ∧ IntroInv s') ∧
    (∀ u r s', unfollowRound s u r = Except.ok s' →
      FollowerInv s' ∧ IntroInv s') ∧
    (∀ i r name msg now,
      FollowerInv (createIntroRequest s i r name msg now).2 ∧
      IntroInv (createIntroRequest s i r name msg now).2) := by
  obtain ⟨hndR, hndU⟩ := hwf
  refine ⟨?_, ?_, ?_⟩
  · intro u r s' h
    rcases followRound_ok_cases s u r s' h with
      ⟨U, hu, hm, rfl⟩ | ⟨U, hu, hm, hr, rfl⟩ | ⟨U, R, hu, hm, hr, rfl⟩
    · exact ⟨hfi, hii⟩
    · constructor
      · intro p hp
        have hne : p.1 ≠ r := ne_of_lookup_none s.rounds r hr p hp
        have hcong := usersFollowing_updateUser_other s u p.1 U
          (fun u0 => { u0 with followedRounds := U.followedRounds ++ [r] })
          hndU hu (contains_append_singleton U.followedRounds r p.1 hne)
        rw [hcong]
        exact hfi p hp
      · exact hii
    · constructor
      · intro p' hp'
        obtain ⟨p, hp, hpeq⟩ := List.mem_map.mp (show p' ∈ List.map
          (fun q => if (q.1 == r) = true
            then (q.1, { q.2 with followerCount := R.followerCount + 1 })
            else q) s.rounds from hp')
        dsimp only at hpeq
        by_cases hk : p.1 = r
        · rw [if_pos (by simp [hk])] at hpeq
          subst hpeq
          dsimp only
          have hF1 := usersFollowing_follow_self s u r U hndU hu hm
          have hfiR : R.followerCount = (usersFollowing s r : Int) :=
            hfi (r, R) (mem_of_lookup_eq_some s.rounds r R hr)
          rw [hk, usersFollowing_updateRound, hF1]
          omega
        · rw [if_neg (by simp [hk])] at hpeq
          subst hpeq
          have hcong := usersFollowing_updateUser_other s u p.1 U
            (fun u0 => { u0 with followedRounds := U.followedRounds ++ [r] })
            hndU hu (contains_append_singleton U.followedRounds r p.1 hk)
          rw [usersFollowing_updateRound, hcong]
          exact hfi p hp
      · intro p' hp'
        obtain ⟨p, hp, hpeq⟩ := List.mem_map.mp (show p' ∈ List.map
          (fun q => if (q.1 == r) = true
            then (q.1, { q.2 with followerCount := R.followerCount + 1 })
            else q) s.rounds from hp')
        dsimp only at hpeq
        by_cases hk : (p.1 == r) = true
        · rw [if_pos hk] at hpeq
          subst hpeq
          exact hii p hp
        · rw [if_neg hk] at hpeq
          subst hpeq
          exact hii p hp
  · intro u r s' h
    rcases unfollowRound_ok_cases s u r s' h with
      ⟨U, hu, hm, rfl⟩ | ⟨U, hu, hm, hr, rfl⟩ | ⟨U, R, hu, hm, hr, rfl⟩
    · exact ⟨hfi, hii⟩
    · constructor
      · intro p hp
        have hne : p.1 ≠ r := ne_of_lookup_none s.rounds r hr p hp
        have hcong := usersFollowing_updateUser_other s u p.1 U
          (fun u0 => { u0 with
            followedRounds := U.followedRounds.filter (fun id => id != r) })
          hndU hu (contains_filter_ne U.followedRounds r p.1 hne)
        rw [hcong]
        exact hfi p hp
      · exact hii
    · constructor
      · intro p' hp'
        obtain ⟨p, hp, hpeq⟩ := List.mem_map.mp (show p' ∈ List.map
          (fun q => if (q.1 == r) = true
            then (q.1, { q.2 with
              followerCount := max (R.followerCount - 1) 0 })
            else q) s.rounds from hp')
        dsimp only at hpeq
        by_cases hk : p.1 = r
        · rw [if_pos (by simp [hk])] at hpeq
          subst hpeq
          dsimp only
          have hdec := usersFollowing_unfollow_self s u r U hndU hu hm
          have hfiR : R.followerCount = (usersFollowing s r : Int) :=
            hfi (r, R) (mem_of_lookup_eq_some s.rounds r R hr)
          rw [hk, usersFollowing_updateRound]
          omega
        · rw [if_neg (by simp [hk])] at hpeq
          subst hpeq
          have hcong := usersFollowing_updateUser_other s u p.1 U
            (fun u0 => { u0 with
              followedRounds :=
                U.followedRounds.filter (fun id => id != r) })
            hndU hu (contains_filter_ne U.followedRounds r p.1 hk)
          rw [usersFollowing_updateRound, hcong]
          exact hfi p hp
      · intro p' hp'
        obtain ⟨p, hp, hpeq⟩ := List.mem_map.mp (show p' ∈ List.map
          (fun q => if (q.1 == r) = true
            then (q.1, { q.2 with
              followerCount := max (R.followerCount - 1) 0 })
            else q) s.rounds from hp')
        dsimp only at hpeq
        by_cases hk : (p.1 == r) = true
        · rw [if_pos hk] at hpeq
          subst hpeq
          exact hii p hp
        · rw [if_neg hk] at hpeq
          subst hpeq
          exact hii p hp
  · intro i r name msg now
    rcases createIntroRequest_cases s i r name msg now with
      ⟨id, q, hf, heq⟩ | ⟨hf, hr, heq⟩ | ⟨R, hf, hr, heq⟩
    · rw [heq]
      exact ⟨hfi, hii⟩
    · rw [heq]
      refine ⟨hfi, ?_⟩
      intro p hp
      have hne : p.1 ≠ r := ne_of_lookup_none s.rounds r hr p hp
      rw [introCountFor_append]
      show p.2.introRequestCount
          = ((introCountFor s p.1
              + if (r == p.1) = true then 1 else 0 : Nat) : Int)
      rw [show (r == p.1) = false by simpa using Ne.symm hne]
      simpa using hii p hp
    · rw [heq]
      constructor
      · intro p' hp'
        obtain ⟨p, hp, hpeq⟩ := List.mem_map.mp (show p' ∈ List.map
          (fun q0 => if (q0.1 == r) = true
            then (q0.1, { q0.2 with
              introRequestCount := R.introRequestCount + 1 })
            else q0) s.rounds from hp')
        dsimp only at hpeq
        by_cases hk : (p.1 == r) = true
        · rw [if_pos hk] at hpeq
          subst hpeq
          exact hfi p hp
        · rw [if_neg hk] at hpeq
          subst hpeq
          exact hfi p hp
      · intro p' hp'
        obtain ⟨p, hp, hpeq⟩ := List.mem_map.mp (show p' ∈ List.map
          (fun q0 => if (q0.1 == r) = true
            then (q0.1, { q0.2 with
              introRequestCount := R.introRequestCount + 1 })
            else q0) s.rounds from hp')
        dsimp only at hpeq
        by_cases hk : p.1 = r
        · rw [if_pos (by simp [hk])] at hpeq
          subst hpeq
          dsimp only
          have hiiR : R.introRequestCount = (introCountFor s r : Int) :=
            hii (r, R) (mem_of_lookup_eq_some s.rounds r R hr)
          rw [hk, introCountFor_updateRound, introCountFor_append]
          show R.introRequestCount + 1
              = ((introCountFor s r
                  + if (r == r) = true then 1 else 0 : Nat) : Int)
          rw [show (r == r) = true by simp,
            show (if (true = true) then 1 else 0 : Nat) = 1 by simp]
          omega
        · rw [if_neg (by simp [hk])] at hpeq
          subst hpeq
          rw [introCountFor_updateRound, introCountFor_append]
          show p.2.introRequestCount
              = ((introCountFor s p.1
                  + if (r == p.1) = true then 1 else 0 : Nat) : Int)
          rw [show (r == p.1) = false by simpa using Ne.symm hk]
          simpa using hii p hp

/-- Closed witness for ledger_preserves_invariants: the demo store is
well-formed and satisfies both invariants, and the store left by a
successful followRound("U","R") still satisfies them. -/
theorem ledger_preserves_invariants_witness :
    StoreWF demoStore ∧ FollowerInv demoStore ∧ IntroInv demoStore ∧
    (FollowerInv demoStoreAfterFollow ∧ IntroInv demoStoreAfterFollow) :=
  ⟨by decide, by decide, by decide,
    (ledger_preserves_invariants demoStore (by decide) (by decide)
      (by decide)).1 "U" "R" demoStoreAfterFollow (by decide)⟩

/-- C7 (recorded as a code bug): under the interleaving in which three
concurrent followRound("U","R") calls all read the user document before
any of them writes, the raced membership check and the read-modify-write
counter update leave followerCount at 3; the claim and the spec require a
final count of 1.  The source's counter update is a read of the current
value followed by a write of value + 1, not an atomic delta. -/
theorem followRound_concurrent_not_atomic :
    ((runFollowThreads demoStore demoFollowThreads
        demoFollowSchedule).1.getRound "R").map (fun x => x.followerCount)
      = some 3 ∧
    ¬ (((runFollowThreads demoStore demoFollowThreads
        demoFollowSchedule).1.getRound "R").map (fun x => x.followerCount)
      = some 1) ∧
    isFollowing (runFollowThreads demoStore demoFollowThreads
      demoFollowSchedule).1 "U" "R" = true := by
  decide

/-- C2 (recorded as a code bug): when two concurrent
createIntroRequest("I","R") calls both pass the existence check before
either inserts, the loser's insert hits the UNIQUE(investor_id, round_id)
constraint and the Supabase implementation rethrows that error to the
caller (thread 0 finishes in the error state) instead of returning the
pre-existing id as a success; the winner commits one record and a count
of 1. -/
theorem createIntroRequest_conflict_surfaced :
    ((runIntroThreads demoStore demoIntroThreads 9 demoIntroSchedule).2.map
      (fun t => t.pc)) = [IntroPC.finishedErr, IntroPC.finishedOk] ∧
    introPairCount
      (runIntroThreads demoStore demoIntroThreads 9 demoIntroSchedule).1
      "I" "R" = 1 ∧
    (((runIntroThreads demoStore demoIntroThreads 9
        demoIntroSchedule).1.getRound "R").map
      (fun x => x.introRequestCount)) = some 1 := by
  decide

/-- Counterexample to C9 as stated: followRound mutates round R (its
followerCount goes from 0 to 1) yet leaves updatedAt exactly where it was
(5), so not every mutation of a round advances updatedAt. -/
theorem updatedAt_not_advanced :
    followRound demoStore "U" "R" = Except.ok demoStoreAfterFollow ∧
    (demoStore.getRound "R").map (fun x => x.followerCount) = some 0 ∧
    (demoStoreAfterFollow.getRound "R").map (fun x => x.followerCount)
      = some 1 ∧
    (demoStore.getRound "R").map (fun x => x.updatedAt) = some 5 ∧
    (demoStoreAfterFollow.getRound "R").map (fun x => x.updatedAt)
      = some 5 := by
  decide

theorem timestamps_updateRound (s : Store) (r rid : String)
    (f : Round → Round)
    (hts : ∀ x, ((f x).createdAt, (f x).updatedAt)
      = (x.createdAt, x.updatedAt)) :
    (Store.getRound (s.updateRound r f) rid).map
        (fun x => (x.createdAt, x.updatedAt))
      = (s.getRound rid).map (fun x => (x.createdAt, x.updatedAt)) := by
  by_cases h : rid = r
  · subst h
    rw [getRound_updateRound_self]
    cases hx : s.getRound rid with
    | none => rfl
    | some R =>
      simp only [Option.map_some']
      exact congrArg some (hts R)
  · rw [getRound_updateRound_ne s r rid f h]

/-- C9 (amended): updateFundraisingRound leaves createdAt unchanged and
always stamps updatedAt with the supplied current time, while the ledger
counter mutations performed by followRound, unfollowRound and
createIntroRequest leave every round's createdAt AND updatedAt exactly as
they were — they do not advance updatedAt. -/
theorem round_timestamps (s : Store) :
    (∀ u r s', followRound s u r = Except.ok s' → ∀ rid,
      (Store.getRound s' rid).map (fun x => (x.createdAt, x.updatedAt))
        = (s.getRound rid).map (fun x => (x.createdAt, x.updatedAt))) ∧
    (∀ u r s', unfollowRound s u r = Except.ok s' → ∀ rid,
      (Store.getRound s' rid).map (fun x => (x.createdAt, x.updatedAt))
        = (s.getRound rid).map (fun x => (x.createdAt, x.updatedAt))) ∧
    (∀ i r name msg now rid,
      (Store.getRound (createIntroRequest s i r name msg now).2 rid).map
          (fun x => (x.createdAt, x.updatedAt))
        = (s.getRound rid).map (fun x => (x.createdAt, x.updatedAt))) ∧
    (∀ rid upd now s',
      updateFundraisingRound s rid upd now = Except.ok s' →
      ∀ R0, s.getRound rid = some R0 →
        (Store.getRound s' rid).map (fun x => x.createdAt)
          = some R0.createdAt ∧
        (Store.getRound s' rid).map (fun x => x.updatedAt) = some now) := by
  refine ⟨?_, ?_, ?_, ?_⟩
  · intro u r s' h rid
    rcases followRound_ok_cases s u r s' h with
      ⟨U, hu, hm, rfl⟩ | ⟨U, hu, hm, hr, rfl⟩ | ⟨U, R, hu, hm, hr, rfl⟩
    · rfl
    · rfl
    · exact timestamps_updateRound
        (s.updateUser u
          (fun u0 => { u0 with followedRounds := U.followedRounds ++ [r] }))
        r rid
        (fun r0 => { r0 with followerCount := R.followerCount + 1 })
        (fun x => rfl)
  · intro u r s' h rid
    rcases unfollowRound_ok_cases s u r s' h with
      ⟨U, hu, hm, rfl⟩ | ⟨U, hu, hm, hr, rfl⟩ | ⟨U, R, hu, hm, hr, rfl⟩
    · rfl
    · rfl
    · exact timestamps_updateRound
        (s.updateUser u
          (fun u0 => { u0 with
            followedRounds := U.followedRounds.filter (fun id => id != r) }))
        r rid
        (fun r0 => { r0 with followerCount := max (R.followerCount - 1) 0 })
        (fun x => rfl)
  · intro i r name msg now rid
    rcases createIntroRequest_cases s i r name msg now with
      ⟨id, q, hf, heq⟩ | ⟨hf, hr, heq⟩ | ⟨R, hf, hr, heq⟩
    · rw [heq]
    · rw [heq]
      rfl
    · rw [heq]
      exact timestamps_updateRound _ r rid _ (fun x => rfl)
  · intro rid upd now s' h R0 hR0
    obtain ⟨R1, hr1, rfl⟩ := updateFundraisingRound_ok s rid upd now s' h
    rw [hr1] at hR0
    have hRR : R1 = R0 := Option.some.inj hR0
    subst hRR
    constructor
    · rw [getRound_updateRound_self, hr1]
      rfl
    · rw [getRound_updateRound_self, hr1]
      rfl

/-- Closed witness for round_timestamps: the store reached by
followRound("U","R") from the demo store carries the same createdAt and
updatedAt on round R as before. -/
theorem round_timestamps_witness :
    (Store.getRound demoStoreAfterFollow "R").map
        (fun x => (x.createdAt, x.updatedAt))
      = (demoStore.getRound "R").map
        (fun x => (x.createdAt, x.updatedAt)) :=
  (round_timestamps demoStore).1 "U" "R" demoStoreAfterFollow (by decide) "R"

/-- Counterexample to C8 as stated: on a body whose roundId and userId are
both absent, the route answers 400 (missing-field error), not 401, so the
endpoint does not reject with an authorization error whenever userId is
absent. -/
theorem POST_overlap_counterexample :
    demoBadBody.userId = Option.none ∧
    (POST demoStore demoBadBody 7).1 = ApiResponse.badRequest ∧
    ¬ ((POST demoStore demoBadBody 7).1 = ApiResponse.authRequired) := by
  decide

/-- C8 (amended): the intro-request POST endpoint answers 400 whenever
roundId or startupName is missing or empty; answers 401 when those two
fields are supplied but userId is missing or empty; answers the distinct
already-requested success (status 200) when a request for
(userId, roundId) already exists; and otherwise creates the request and
answers 201 carrying its id. -/
theorem POST_spec (s : Store) (b : IntroPostBody) (now : Nat) :
    ((falsyField b.roundId || falsyField b.startupName) = true →
      POST s b now = (ApiResponse.badRequest, s)) ∧
    ((falsyField b.roundId || falsyField b.startupName) = false →
      falsyField b.userId = true →
      POST s b now = (ApiResponse.authRequired, s)) ∧
    ((falsyField b.roundId || falsyField b.startupName) = false →
      falsyField b.userId = false →
      hasIntroRequest s (b.userId.getD "") (b.roundId.getD "") = true →
      POST s b now = (ApiResponse.alreadyRequested, s)) ∧
    ((falsyField b.roundId || falsyField b.startupName) = false →
      falsyField b.userId = false →
      hasIntroRequest s (b.userId.getD "") (b.roundId.getD "") = false →
      POST s b now =
        (ApiResponse.created
          (createIntroRequest s (b.userId.getD "") (b.roundId.getD "")
            (b.startupName.getD "") Option.none now).1,
         (createIntroRequest s (b.userId.getD "") (b.roundId.getD "")
            (b.startupName.getD "") Option.none now).2)) := by
  refine ⟨?_, ?_, ?_, ?_⟩
  · intro h1
    unfold POST
    rw [h1]
    rfl
  · intro h1 h2
    unfold POST
    rw [h1, h2]
    rfl
  · intro h1 h2 h3
    unfold POST
    rw [h1, h2]
    dsimp only
    rw [h3]
    rfl
  · intro h1 h2 h3
    unfold POST
    rw [h1, h2]
    dsimp only
    rw [h3]
    rfl

/-- Closed witness for POST_spec: a fully populated body against the demo
store (which holds no requests) takes the created branch. -/
theorem POST_spec_witness :
    POST demoStore
      { roundId := some "R", startupName := some "Acme", userId := some "I" }
      7
      = (ApiResponse.created
          (createIntroRequest demoStore "I" "R" "Acme" Option.none 7).1,
         (createIntroRequest demoStore "I" "R" "Acme" Option.none 7).2) :=
  (POST_spec demoStore
    { roundId := some "R", startupName := some "Acme", userId := some "I" }
    7).2.2.2 (by decide) (by decide) (by decide)

end FundFeed



